import Mathlib

/-!
# Verification of `simdat` (core/dp_models.py, examples/openface_demo.py)

Shallow embedding of the repository's pure control logic.  External
collaborators (numpy, sklearn, theano, keras, the simdat helper modules) are
modelled as parameters constrained by their documented contracts; the code of
this repository is translated faithfully, statement by statement.
-/

namespace Simdat

/-! ## `DEMO.set_classifier` (openface_demo.py lines 24-40)

`set_classifier(method)` binds one of the three classifier wrappers to
`self.ml` and records the chosen kind in `self.classifier`. -/

/-- The three classifier wrapper classes from `simdat.core.ml`. -/
inductive MLWrapper
  | RFRun
  | NeighborsRun
  | SVMRun
deriving DecidableEq, Repr

/-- `DEMO.set_classifier(method)`: returns the wrapper bound to `self.ml`
and the string recorded in `self.classifier`. -/
def set_classifier (method : String) : MLWrapper × String :=
  if method = "RF" then (MLWrapper.RFRun, method)
  else if method = "Neighbors" then (MLWrapper.NeighborsRun, method)
  else (MLWrapper.SVMRun, "SVC")

/-! ## `ImageNet.get_labels` (dp_models.py lines 247-253)

The file system is a parameter `fs : String → Option (List String)` mapping a
filename to its list of lines when the file exists.  `np.loadtxt(fname, str,
delimiter=TAB)` is external (numpy); per its contract on the label-file format
(one label record per line, no tab inside a record) it yields one string entry
per line in file order. -/

/-- Outcome of `get_labels`: either the process terminates via `sys.exit`
after printing a message, or the label table is returned. -/
inductive GetLabelsResult
  | exitWith (msg : String) (code : Nat)
  | labels (tbl : List String)
deriving DecidableEq, Repr

/-- `ImageNet.get_labels(fname)`. -/
def get_labels (fs : String → Option (List String)) (fname : String) :
    GetLabelsResult :=
  match fs fname with
  | none => GetLabelsResult.exitWith ("ERROR: Cannot find " ++ fname ++ ".") 1
  | some ls => GetLabelsResult.labels ls

/-! ## `DEMO.act_predict` mapping lookup (openface_demo.py lines 179-185)

For each image the classifier yields a class label `cl`; the code evaluates
`[c for c in mapping if mapping[c] == cl][0]`, which raises `IndexError` on an
empty comprehension.  The mapping file is an ordered association list. -/

/-- The list comprehension `[c for c in mapping if mapping[c] == cl]`. -/
def keysWithValue (mapping : List (String × String)) (cl : String) :
    List String :=
  (mapping.filter (fun kv => kv.2 = cl)).map (fun kv => kv.1)

/-- One iteration of the `act_predict` loop body: prints the first key whose
value equals the predicted label, or raises `IndexError` when none exists. -/
def predictPrintLabel (mapping : List (String × String)) (cl : String) :
    Except String String :=
  match keysWithValue mapping cl with
  | [] => Except.error "IndexError"
  | k :: _ => Except.ok k

/-- The per-image loop of `act_predict`, given the classifier's predicted
class label for each discovered image.  An unhandled `IndexError` aborts the
whole action: later images are not processed. -/
def act_predict_run (mapping : List (String × String)) :
    List String → Except String (List String)
  | [] => Except.ok []
  | cl :: cls =>
    match predictPrintLabel mapping cl with
    | Except.error e => Except.error e
    | Except.ok k =>
      match act_predict_run mapping cls with
      | Except.error e => Except.error e
      | Except.ok ks => Except.ok (k :: ks)

/-! ## `DEMO` action traces (openface_demo.py lines 47-84, 127-165, 187-250)

For claim C3 we model the sequence of observable events each action performs:
calls into the selected classifier wrapper (`self.ml.…`) and `sys.exit(1)`.
The relevant state of a `DEMO` object: whether `set_classifier` ran
(`mlSet`), whether the model pickle file exists (`modelExists`), and the
representation-DB list set by `set_dbs` (`dbs`, `none` when never set). -/

/-- Observable events of a demo action. -/
inductive Ev
  | wrapper (name : String)
  | exit1
deriving DecidableEq, BEq, Repr

/-- Demo-object state relevant to `act_train` / `act_test` / `act_pca`. -/
structure DemoState where
  mlSet : Bool
  modelExists : Bool
  dbs : Option (List String)

/-- `self.dbs is None or len(self.dbs) == 0` (the `_check_dbs` condition). -/
def dbsEmpty (s : DemoState) : Bool :=
  match s.dbs with
  | none => true
  | some l => l.isEmpty

/-- Trace of `DEMO.read_model`: `_check_classifier`, then the pickle-file
existence check, then `self.ml.read_model(mpath)`.  The boolean is false when
the function exited the process. -/
def read_model_t (s : DemoState) : List Ev × Bool :=
  match s.mlSet with
  | false => ([Ev.exit1], false)
  | true =>
    match s.modelExists with
    | false => ([Ev.exit1], false)
    | true => ([Ev.wrapper "read_model"], true)

/-- Trace of `DEMO.act_train`: `_check_classifier`; `_pick_imgs` (which runs
`_check_dbs`); `read_df`; `self.ml.run`. -/
def act_train_trace (s : DemoState) : List Ev :=
  match s.mlSet with
  | false => [Ev.exit1]
  | true =>
    match dbsEmpty s with
    | true => [Ev.exit1]
    | false => [Ev.wrapper "run"]

/-- Trace of `DEMO.act_test`: `read_model` first, then `_pick_imgs` (which
runs `_check_dbs`), then per-case `self.ml.test` calls. -/
def act_test_trace (s : DemoState) : List Ev :=
  match read_model_t s with
  | (t, false) => t
  | (t, true) =>
    match dbsEmpty s with
    | true => t ++ [Ev.exit1]
    | false => t ++ [Ev.wrapper "test"]

/-- Trace of `DEMO.act_pca`: `parse_json`, then `_pick_imgs` (which runs
`_check_dbs`); the PCA work uses `ml.MLTools()`, not the selected wrapper. -/
def act_pca_trace (s : DemoState) : List Ev :=
  match dbsEmpty s with
  | true => [Ev.exit1]
  | false => []

/-- Whether an event is a call into the selected classifier wrapper. -/
def isWrapperEv : Ev → Bool
  | Ev.wrapper _ => true
  | Ev.exit1 => false

/-- The trace reaches `sys.exit(1)` with no wrapper call made before it. -/
def exitsBeforeWrapper (t : List Ev) : Bool :=
  t.contains Ev.exit1 &&
    (t.takeWhile (fun e => e != Ev.exit1)).all (fun e => !isWrapperEv e)

/-! ## `DEMO.act_test` counting loop (openface_demo.py lines 211-249)

`res['target'][i][0]` is the ground-truth category `cat` of case `i`;
`r1 = self.ml.test(...)` is the classifier wrapper's output, holding
`predicted` labels and optionally per-prediction probability vectors `prob`.
`max(prob)` and `prob.argmax()` are modelled by `listMax` / `argmaxIdx`
(numpy `argmax` returns the first index attaining the maximum). -/

/-- Python `max` over a nonempty list (`max([])` would raise). -/
def listMax : List ℚ → ℚ
  | [] => 0
  | x :: xs => xs.foldl max x

/-- Scan for numpy `argmax`: keep the earliest index of the running max. -/
def argmaxAux : List ℚ → Nat → ℚ → Nat → Nat
  | [], bi, _, _ => bi
  | x :: xs, bi, bv, i =>
    if bv < x then argmaxAux xs i x (i + 1) else argmaxAux xs bi bv (i + 1)

/-- numpy `prob.argmax()`: first index attaining the maximum. -/
def argmaxIdx : List ℚ → Nat
  | [] => 0
  | x :: xs => argmaxAux xs 0 x 1

/-- Output of `self.ml.test` for one test case. -/
structure CaseResult where
  predicted : List Nat
  prob : Option (List (List ℚ))

/-- Loop body for the no-probability branch: `if cat == predicted[p]:
found = True`. -/
def stepNoProb (cat : Nat) (found : Bool) (p : Nat) : Bool :=
  if cat = p then true else found

/-- Loop body for the probability branch: `if vmax > thre: if imax == cat:
found = True else: mis_match = True`. -/
def stepProb (thre : ℚ) (cat : Nat) (fm : Bool × Bool) (pr : List ℚ) :
    Bool × Bool :=
  if thre < listMax pr then
    (if argmaxIdx pr = cat then (true, fm.2) else (fm.1, true))
  else fm

/-- The `(found, mis_match)` flags after processing one test case, starting
from `(False, False)`. -/
def caseFlags (thre : ℚ) (cat : Nat) (r : CaseResult) : Bool × Bool :=
  match r.prob with
  | none => (r.predicted.foldl (stepNoProb cat) false, false)
  | some probs => probs.foldl (stepProb thre cat) (false, false)

/-- Counter update per case: `if found: match += 1; if mis_match:
nwrong += 1`. -/
def testStep (thre : ℚ) (mn : Nat × Nat) (c : Nat × CaseResult) : Nat × Nat :=
  ((if (caseFlags thre c.1 c.2).1 then mn.1 + 1 else mn.1),
   (if (caseFlags thre c.1 c.2).2 then mn.2 + 1 else mn.2))

/-- The `(match, nwrong)` counters of `act_test` over all test cases. -/
def act_test_counts (thre : ℚ) (cases : List (Nat × CaseResult)) : Nat × Nat :=
  cases.foldl (testStep thre) (0, 0)

/-- The recall / precision lines printed by the final `try` block of
`act_test`: `float(match)/float(len(res['data']))` raises `ZeroDivisionError`
when there are no cases (so neither line is printed), and
`float(match)/float(match + nwrong)` raises when `match + nwrong == 0` (so the
precision line alone is skipped); the bare `except: pass` swallows either
error. -/
def act_test_metrics (thre : ℚ) (cases : List (Nat × CaseResult)) :
    Option ℚ × Option ℚ :=
  let m := (act_test_counts thre cases).1
  let nw := (act_test_counts thre cases).2
  if cases.length = 0 then (none, none)
  else if m + nw = 0 then (some ((m : ℚ) / (cases.length : ℚ)), none)
  else (some ((m : ℚ) / (cases.length : ℚ)),
        some ((m : ℚ) / ((m : ℚ) + (nw : ℚ))))

/-- Four test cases with no probability output: two whose prediction matches
the ground truth and two whose prediction is wrong, giving `match = 2`,
`nwrong = 0`. -/
def exFourCases : List (Nat × CaseResult) :=
  [(0, ⟨[0], none⟩), (0, ⟨[0], none⟩), (0, ⟨[1], none⟩), (0, ⟨[1], none⟩)]

/-- A test case with probability output: the single prediction has maximum
probability 2 at index 1. -/
def exProbCase : CaseResult := ⟨[], some [[0, 2]]⟩

/-! ## `ImageNet.find_topk` (dp_models.py lines 255-277)

`prob.flatten().argsort()[-1:-(ntop+1):-1]` sorts the indices of `prob`
ascending by value and takes the last `ntop` of them in reverse: the indices
of the `ntop` largest values in descending order of value. -/

/-- `prob[i]` for an index produced by `argsort`. -/
def probVal (l : List ℚ) (i : Nat) : ℚ := l.getD i 0

/-- numpy `argsort` (ascending): the indices `0..len-1` sorted by value. -/
def argsortAsc (l : List ℚ) : List Nat :=
  List.insertionSort (fun i j => probVal l i ≤ probVal l j)
    (List.range l.length)

/-- The slice `argsort()[-1:-(ntop+1):-1]`. -/
def topkIdx (l : List ℚ) (ntop : Nat) : List Nat :=
  ((argsortAsc l).reverse).take ntop

/-- `labels[k].replace(',', '').split(' ')`. -/
def parseLabel (s : String) : List String := (s.replace "," "").splitOn " "

/-- `ImageNet.find_topk`, as the ordered entries of the returned dictionary:
`results[k] = (prob[k], l[0], l[1:])` for `k` in the top-`ntop` index slice. -/
def find_topk (l : List ℚ) (labels : List String) (ntop : Nat) :
    List (Nat × ℚ × String × List String) :=
  (topkIdx l ntop).map (fun k =>
    (k, probVal l k, (parseLabel (labels.getD k "")).headD "",
     (parseLabel (labels.getD k "")).tail))

/-- The input probabilities sorted in descending order (specification-side
characterization of "the N largest values, in descending order"). -/
def sortDesc (l : List ℚ) : List ℚ :=
  List.insertionSort (fun a b : ℚ => b ≤ a) l

/-! ## `DP.cluster_hc` (dp_models.py lines 38-50)

The hypercolumn stack `hc` has shape (channels, side, side);
`hc.transpose(1, 2, 0).reshape(new_size, -1)` yields the (side², channels)
matrix whose row `p` is the channel vector of pixel `(p / side, p % side)`.
`sklearn.cluster.KMeans(n_clusters=2, max_iter=300).fit_predict` is external;
it is a parameter constrained by its contract (one label per sample, labels
in `{0, …, n_clusters-1}`).  The `np.zeros` result is discarded by the
rebinding `imcluster = cluster_labels`; the returned image is
`cluster_labels.reshape(ori_size, ori_size)`. -/

/-- `ori_size = hc.shape[1]`. -/
def hcSide (hc : List (List (List ℚ))) : Nat := (hc.headD []).length

/-- `hc.transpose(1, 2, 0).reshape(new_size, -1)`: one row of `channels`
values per pixel. -/
def hcPixelRows (hc : List (List (List ℚ))) : List (List ℚ) :=
  (List.range (hcSide hc * hcSide hc)).map
    (fun p => hc.map
      (fun ch => (ch.getD (p / hcSide hc) []).getD (p % hcSide hc) 0))

/-- A 2-D integer label image (the reshaped k-means labels). -/
structure LabelImage where
  rows : Nat
  cols : Nat
  data : List Nat
deriving DecidableEq, Repr

/-- `DP.cluster_hc`, parametrized by the external k-means
(`n_clusters → max_iter → samples → labels`). -/
def cluster_hc (kmeansFit : Nat → Nat → List (List ℚ) → List Nat)
    (hc : List (List (List ℚ))) : LabelImage :=
  ⟨hcSide hc, hcSide hc, kmeansFit 2 300 (hcPixelRows hc)⟩

/-- A concrete one-channel 2×2 hypercolumn stack. -/
def exHc : List (List (List ℚ)) := [[[1, 2], [3, 4]]]

/-! ## `DP.extract_hypercolumn` (dp_models.py lines 18-36)

The theano forward pass is external: `feature_maps` (one entry per selected
layer, each a list of channel matrices, `convmap[0]` dropping the batch axis)
is a parameter.  `sp.misc.imresize(fmap, size=(224, 224), mode="F",
interp='bilinear')` is external; it is a parameter constrained by its
contract (output shape 224×224). -/

/-- A 2-D feature map. -/
structure Mat where
  rows : Nat
  cols : Nat
  entries : List ℚ
deriving DecidableEq, Repr

/-- Placeholder matrix used as `getD` default. -/
def matZero : Mat := ⟨0, 0, []⟩

/-- `DP.extract_hypercolumn`: for each selected layer's feature maps, resize
every channel and append, in (layer, channel) order. -/
def extract_hypercolumn (resize : Mat → Mat) (featureMaps : List (List Mat)) :
    List Mat :=
  (featureMaps.map (fun convmap => convmap.map resize)).flatten

/-- Concrete feature maps: a one-channel layer and a two-channel layer. -/
def exFeatureMaps : List (List Mat) :=
  [[⟨2, 2, [1, 2, 3, 4]⟩], [⟨1, 1, [5]⟩, ⟨1, 1, [6]⟩]]

end Simdat

namespace Simdat

/-! ## Auxiliary lemmas -/

/-- `predictPrintLabel` only ever raises `IndexError`. -/
theorem predictPrintLabel_error_eq (mapping : List (String × String))
    (cl : String) (e : String)
    (h : predictPrintLabel mapping cl = Except.error e) : e = "IndexError" := by
  unfold predictPrintLabel at h
  cases hk : keysWithValue mapping cl with
  | nil =>
    rw [hk] at h
    cases h
    rfl
  | cons k ks =>
    rw [hk] at h
    cases h

end Simdat

namespace Simdat

/-! ## Theorems -/

/-- C7: `set_classifier` selects the RF wrapper and records kind "RF" exactly
when the argument equals "RF", selects the Neighbors wrapper and records
"Neighbors" exactly when the argument equals "Neighbors" (case-sensitive), and
otherwise selects the SVM wrapper and records "SVC". -/
theorem set_classifier_spec (method : String) :
    (method = "RF" → set_classifier method = (MLWrapper.RFRun, "RF")) ∧
    (method = "Neighbors" →
      set_classifier method = (MLWrapper.NeighborsRun, "Neighbors")) ∧
    (method ≠ "RF" → method ≠ "Neighbors" →
      set_classifier method = (MLWrapper.SVMRun, "SVC")) ∧
    ((set_classifier method).1 = MLWrapper.RFRun ↔ method = "RF") ∧
    ((set_classifier method).1 = MLWrapper.NeighborsRun ↔
      method = "Neighbors") := by
  unfold set_classifier
  by_cases h1 : method = "RF" <;> by_cases h2 : method = "Neighbors" <;>
    simp [h1, h2]

/-- Witness for C7 at concrete inputs, showing case sensitivity: the
lower-case string "rf" falls through to the SVM wrapper. -/
theorem set_classifier_spec_witness :
    set_classifier "rf" = (MLWrapper.SVMRun, "SVC") :=
  (set_classifier_spec "rf").2.2.1 (by decide) (by decide)

/-- C8: when the existence check fails, `get_labels` prints an error message
naming the file and exits with status 1; when the file exists it returns the
label table with one entry per line in file order. -/
theorem get_labels_spec (fs : String → Option (List String)) (fname : String) :
    (fs fname = none →
      get_labels fs fname =
        GetLabelsResult.exitWith ("ERROR: Cannot find " ++ fname ++ ".") 1) ∧
    (∀ ls, fs fname = some ls →
      get_labels fs fname = GetLabelsResult.labels ls) := by
  constructor
  · intro h
    simp [get_labels, h]
  · intro ls h
    simp [get_labels, h]

/-- Witness for C8: a two-file file system, evaluated at a missing and at an
existing filename. -/
theorem get_labels_spec_witness :
    get_labels (fun n => if n = "synset_words.txt" then some ["a", "b"]
      else none) "missing.txt" =
      GetLabelsResult.exitWith ("ERROR: Cannot find " ++ "missing.txt" ++ ".")
        1 ∧
    get_labels (fun n => if n = "synset_words.txt" then some ["a", "b"]
      else none) "synset_words.txt" = GetLabelsResult.labels ["a", "b"] :=
  ⟨(get_labels_spec _ "missing.txt").1 (by decide),
   (get_labels_spec _ "synset_words.txt").2 ["a", "b"] (by decide)⟩

/-- C10: in `act_predict`, when the predicted class label is not a value of
any mapping entry, the per-image lookup raises an unhandled `IndexError`,
aborting the action; when at least one entry has that value, the key of the
first such entry is printed. -/
theorem act_predict_lookup_spec (mapping : List (String × String))
    (cl : String) :
    ((∀ kv ∈ mapping, kv.2 ≠ cl) →
      predictPrintLabel mapping cl = Except.error "IndexError") ∧
    (∀ cls, cl ∈ cls → (∀ kv ∈ mapping, kv.2 ≠ cl) →
      act_predict_run mapping cls = Except.error "IndexError") ∧
    (∀ kvf rest, mapping.filter (fun kv => kv.2 = cl) = kvf :: rest →
      predictPrintLabel mapping cl = Except.ok kvf.1 ∧
        kvf ∈ mapping ∧ kvf.2 = cl) := by
  refine ⟨?_, ?_, ?_⟩
  · intro h
    have hf : mapping.filter (fun kv => decide (kv.2 = cl)) = [] := by
      rw [List.filter_eq_nil_iff]
      intro kv hkv
      simp [h kv hkv]
    simp [predictPrintLabel, keysWithValue, hf]
  · intro cls hmem h
    have herr : predictPrintLabel mapping cl = Except.error "IndexError" := by
      have hf : mapping.filter (fun kv => decide (kv.2 = cl)) = [] := by
        rw [List.filter_eq_nil_iff]
        intro kv hkv
        simp [h kv hkv]
      simp [predictPrintLabel, keysWithValue, hf]
    clear h
    induction cls with
    | nil => cases hmem
    | cons c cs ih =>
      rcases List.mem_cons.mp hmem with rfl | hmem2
      · simp [act_predict_run, herr]
      · cases hpc : predictPrintLabel mapping c with
        | error e =>
          have he := predictPrintLabel_error_eq mapping c e hpc
          subst he
          simp [act_predict_run, hpc]
        | ok k =>
          have hrest := ih hmem2
          simp [act_predict_run, hpc, hrest]
  · intro kvf rest hfilter
    have h1 : predictPrintLabel mapping cl = Except.ok kvf.1 := by
      simp [predictPrintLabel, keysWithValue, hfilter]
    have h2 : kvf ∈ mapping.filter (fun kv => decide (kv.2 = cl)) := by
      rw [hfilter]; exact List.mem_cons_self _ _
    have h3 := List.of_mem_filter h2
    exact ⟨h1, List.mem_of_mem_filter h2, by simpa using h3⟩

/-- One `stepNoProb` update ors the old flag with the match test. -/
theorem stepNoProb_eq (cat : Nat) (b : Bool) (p : Nat) :
    stepNoProb cat b p = (b || decide (cat = p)) := by
  unfold stepNoProb
  by_cases h : cat = p <;> simp [h]

/-- The no-probability loop sets `found` iff some predicted label equals the
ground truth. -/
theorem foldl_stepNoProb (cat : Nat) (ps : List Nat) (b : Bool) :
    ps.foldl (stepNoProb cat) b = (b || ps.any (fun p => decide (cat = p))) := by
  induction ps generalizing b with
  | nil => simp
  | cons p ps ih =>
    simp [List.foldl_cons, stepNoProb_eq, ih, Bool.or_assoc]

/-- One `stepProb` update ors each flag with the corresponding qualification
test of the current prediction. -/
theorem stepProb_eq (thre : ℚ) (cat : Nat) (fm : Bool × Bool) (pr : List ℚ) :
    stepProb thre cat fm pr =
      (fm.1 || (decide (thre < listMax pr) && decide (argmaxIdx pr = cat)),
       fm.2 || (decide (thre < listMax pr) && !decide (argmaxIdx pr = cat))) := by
  unfold stepProb
  by_cases h1 : thre < listMax pr <;> by_cases h2 : argmaxIdx pr = cat <;>
    simp [h1, h2]

/-- The probability loop sets `found` (resp. `mis_match`) iff some prediction
is above threshold with the right (resp. a wrong) argmax. -/
theorem foldl_stepProb (thre : ℚ) (cat : Nat) (probs : List (List ℚ))
    (fm : Bool × Bool) :
    probs.foldl (stepProb thre cat) fm =
      (fm.1 || probs.any
        (fun pr => decide (thre < listMax pr) && decide (argmaxIdx pr = cat)),
       fm.2 || probs.any
        (fun pr =>
          decide (thre < listMax pr) && !decide (argmaxIdx pr = cat))) := by
  induction probs generalizing fm with
  | nil => simp
  | cons pr prs ih =>
    simp [List.foldl_cons, ih, stepProb_eq, Bool.or_assoc]

/-- `any` over a `filter` is `any` of the conjunction. -/
theorem any_filter_eq (l : List (List ℚ)) (p q : List ℚ → Bool) :
    (l.filter p).any q = l.any (fun a => p a && q a) := by
  induction l with
  | nil => simp
  | cons a l ih =>
    by_cases h : p a <;> simp [h, ih]

/-- C3 counterexample: with the classifier set, the model pickle present, and
an empty representation-DB list, `act_test` calls the selected classifier
wrapper's `read_model` before terminating: it does not exit before any call
into the wrapper. -/
theorem act_test_wrapper_call_before_exit :
    dbsEmpty ⟨true, true, some []⟩ = true ∧
    act_test_trace ⟨true, true, some []⟩ =
      [Ev.wrapper "read_model", Ev.exit1] ∧
    exitsBeforeWrapper (act_test_trace ⟨true, true, some []⟩) = false := by
  refine ⟨rfl, ?_, ?_⟩ <;> decide

/-- C3 amended: whenever the representation-DB list is unset or empty,
`act_train` and `act_pca` terminate with non-zero exit before any call into
the selected classifier wrapper; `act_test` also terminates with non-zero
exit, and the only wrapper call that may precede the exit is the
model-loading call `read_model`, which happens exactly when the classifier is
set and the model file exists. -/
theorem empty_dbs_exits_nonzero (s : DemoState) (h : dbsEmpty s = true) :
    exitsBeforeWrapper (act_train_trace s) = true ∧
    exitsBeforeWrapper (act_pca_trace s) = true ∧
    (act_test_trace s).contains Ev.exit1 = true ∧
    ((act_test_trace s).takeWhile (fun e => e != Ev.exit1)).all
      (fun e => e == Ev.wrapper "read_model") = true ∧
    (s.mlSet = true → s.modelExists = true →
      act_test_trace s = [Ev.wrapper "read_model", Ev.exit1]) := by
  obtain ⟨ml, mdl, dbs⟩ := s
  rcases dbs with _ | l
  · cases ml <;> cases mdl <;> decide
  · cases l with
    | nil => cases ml <;> cases mdl <;> decide
    | cons a l => simp [dbsEmpty] at h

/-- Witness for C3's amended theorem at a concrete state with unset dbs. -/
theorem empty_dbs_exits_nonzero_witness :
    exitsBeforeWrapper (act_train_trace ⟨true, true, none⟩) = true ∧
    exitsBeforeWrapper (act_pca_trace ⟨true, true, none⟩) = true ∧
    (act_test_trace ⟨true, true, none⟩).contains Ev.exit1 = true ∧
    ((act_test_trace ⟨true, true, none⟩).takeWhile
        (fun e => e != Ev.exit1)).all
      (fun e => e == Ev.wrapper "read_model") = true ∧
    ((true : Bool) = true → (true : Bool) = true →
      act_test_trace ⟨true, true, none⟩ =
        [Ev.wrapper "read_model", Ev.exit1]) :=
  empty_dbs_exits_nonzero ⟨true, true, none⟩ (by decide)

/-- Witness for C10: a concrete two-entry mapping; the label "x" is missing
(single lookup and whole action error out), the label "v" is present twice and
the first key is reported. -/
theorem act_predict_lookup_spec_witness :
    predictPrintLabel [("a", "v"), ("b", "v")] "x" =
      Except.error "IndexError" ∧
    act_predict_run [("a", "v"), ("b", "v")] ["v", "x", "v"] =
      Except.error "IndexError" ∧
    predictPrintLabel [("a", "v"), ("b", "v")] "v" = Except.ok "a" :=
  ⟨(act_predict_lookup_spec [("a", "v"), ("b", "v")] "x").1 (by decide),
   (act_predict_lookup_spec [("a", "v"), ("b", "v")] "x").2.1
     ["v", "x", "v"] (by decide) (by decide),
   ((act_predict_lookup_spec [("a", "v"), ("b", "v")] "v").2.2
     ("a", "v") [("b", "v")] (by decide)).1⟩

/-- C1: in `act_test`, a case with no probability output counts as a match
iff some predicted label equals the ground truth; with probabilities, the
case counts as a match iff some prediction has maximum probability strictly
above the threshold with argmax equal to the ground truth, counts as a
mismatch iff some prediction is strictly above the threshold with a wrong
argmax, and below-threshold predictions contribute to neither flag (deleting
them from the loop leaves both flags unchanged). -/
theorem act_test_case_counting (thre : ℚ) (cat : Nat) (r : CaseResult)
    (hne : ∀ probs, r.prob = some probs → ∀ pr ∈ probs, pr ≠ []) :
    (r.prob = none →
      ((caseFlags thre cat r).1 = true ↔ cat ∈ r.predicted) ∧
      (caseFlags thre cat r).2 = false) ∧
    (∀ probs, r.prob = some probs →
      ((caseFlags thre cat r).1 = true ↔
        ∃ pr ∈ probs, thre < listMax pr ∧ argmaxIdx pr = cat) ∧
      ((caseFlags thre cat r).2 = true ↔
        ∃ pr ∈ probs, thre < listMax pr ∧ argmaxIdx pr ≠ cat) ∧
      probs.foldl (stepProb thre cat) (false, false) =
        (probs.filter (fun pr => decide (thre < listMax pr))).foldl
          (stepProb thre cat) (false, false)) := by
  obtain ⟨pred, prob⟩ := r
  constructor
  · intro hp
    simp only at hp
    subst hp
    simp only [caseFlags]
    refine ⟨?_, by trivial⟩
    rw [foldl_stepNoProb]
    simp only [Bool.false_or, List.any_eq_true, decide_eq_true_eq]
    constructor
    · rintro ⟨p, hmem, hpe⟩
      exact hpe ▸ hmem
    · intro hmem
      exact ⟨cat, hmem, rfl⟩
  · intro probs hp
    simp only at hp
    subst hp
    simp only [caseFlags]
    refine ⟨?_, ?_, ?_⟩
    · rw [foldl_stepProb]
      simp [List.any_eq_true]
    · rw [foldl_stepProb]
      simp [List.any_eq_true]
    · rw [foldl_stepProb, foldl_stepProb, any_filter_eq, any_filter_eq]
      have hone : ∀ pr : List ℚ,
          (decide (thre < listMax pr) &&
            (decide (thre < listMax pr) && decide (argmaxIdx pr = cat))) =
          (decide (thre < listMax pr) && decide (argmaxIdx pr = cat)) := by
        intro pr
        by_cases h : thre < listMax pr <;> simp [h]
      have htwo : ∀ pr : List ℚ,
          (decide (thre < listMax pr) &&
            (decide (thre < listMax pr) && !decide (argmaxIdx pr = cat))) =
          (decide (thre < listMax pr) && !decide (argmaxIdx pr = cat)) := by
        intro pr
        by_cases h : thre < listMax pr <;> simp [h]
      simp only [hone, htwo]

/-- Witness for C1 at `exProbCase` (threshold 1, ground truth 1): its single
prediction is above threshold with argmax 1. -/
theorem act_test_case_counting_witness :
    (exProbCase.prob = none →
      ((caseFlags 1 1 exProbCase).1 = true ↔ 1 ∈ exProbCase.predicted) ∧
      (caseFlags 1 1 exProbCase).2 = false) ∧
    (∀ probs, exProbCase.prob = some probs →
      ((caseFlags 1 1 exProbCase).1 = true ↔
        ∃ pr ∈ probs, (1 : ℚ) < listMax pr ∧ argmaxIdx pr = 1) ∧
      ((caseFlags 1 1 exProbCase).2 = true ↔
        ∃ pr ∈ probs, (1 : ℚ) < listMax pr ∧ argmaxIdx pr ≠ 1) ∧
      probs.foldl (stepProb 1 1) (false, false) =
        (probs.filter (fun pr => decide ((1 : ℚ) < listMax pr))).foldl
          (stepProb 1 1) (false, false)) :=
  act_test_case_counting 1 1 exProbCase (by
    intro probs hp pr hpr
    cases hp
    rw [List.mem_singleton] at hpr
    subst hpr
    decide)

/-- Accumulator form of the `act_test` counting loop: each case adds one to
`match` iff its `found` flag is set and one to `nwrong` iff its `mis_match`
flag is set. -/
theorem act_test_counts_aux (thre : ℚ) (cs : List (Nat × CaseResult))
    (m0 n0 : Nat) :
    cs.foldl (testStep thre) (m0, n0) =
      (m0 + cs.countP (fun c => (caseFlags thre c.1 c.2).1),
       n0 + cs.countP (fun c => (caseFlags thre c.1 c.2).2)) := by
  induction cs generalizing m0 n0 with
  | nil => simp
  | cons c cs ih =>
    simp only [List.foldl_cons, List.countP_cons, testStep]
    rw [ih]
    by_cases h1 : (caseFlags thre c.1 c.2).1 <;>
      by_cases h2 : (caseFlags thre c.1 c.2).2 <;>
      simp [h1, h2, Prod.ext_iff] <;> omega

/-- C9: each test case increments the match counter at most once and the
mismatch counter at most once (the counters are `countP` of the per-case
flags), so both are bounded by the number of test cases; and a concrete case
with one correct and one wrong above-threshold prediction increments both
counters. -/
theorem act_test_counts_per_case (thre : ℚ)
    (cs : List (Nat × CaseResult)) :
    (act_test_counts thre cs).1 =
      cs.countP (fun c => (caseFlags thre c.1 c.2).1) ∧
    (act_test_counts thre cs).2 =
      cs.countP (fun c => (caseFlags thre c.1 c.2).2) ∧
    (act_test_counts thre cs).1 ≤ cs.length ∧
    (act_test_counts thre cs).2 ≤ cs.length ∧
    act_test_counts 1 [(0, ⟨[], some [[2, 0], [0, 2]]⟩)] = (1, 1) := by
  have h := act_test_counts_aux thre cs 0 0
  unfold act_test_counts
  rw [h]
  refine ⟨by simp, by simp, ?_, ?_, by decide⟩
  · simpa using List.countP_le_length _
  · simpa using List.countP_le_length _

/-- C2: after the loop, `act_test` prints recall = match / total and
precision = match / (match + mismatch); a zero denominator raises inside the
`try` block and the bare `except` suppresses it, so no line is printed for
that metric and no crash occurs (a zero total also suppresses the precision
line, but then match + mismatch is zero as well); with match = 2,
mismatch = 0 and 4 cases it prints recall 1/2 (0.50) and precision 1
(1.00). -/
theorem act_test_metrics_spec (thre : ℚ) (cs : List (Nat × CaseResult)) :
    (cs.length = 0 → act_test_metrics thre cs = (none, none)) ∧
    (cs.length ≠ 0 →
      (act_test_metrics thre cs).1 =
        some (((act_test_counts thre cs).1 : ℚ) / (cs.length : ℚ)) ∧
      ((act_test_counts thre cs).1 + (act_test_counts thre cs).2 = 0 →
        (act_test_metrics thre cs).2 = none) ∧
      ((act_test_counts thre cs).1 + (act_test_counts thre cs).2 ≠ 0 →
        (act_test_metrics thre cs).2 =
          some (((act_test_counts thre cs).1 : ℚ) /
            (((act_test_counts thre cs).1 : ℚ) +
              ((act_test_counts thre cs).2 : ℚ))))) ∧
    exFourCases.length = 4 ∧
    act_test_counts 1 exFourCases = (2, 0) ∧
    act_test_metrics 1 exFourCases = (some (1/2), some 1) := by
  have hc : act_test_counts 1 exFourCases = (2, 0) := by decide
  refine ⟨?_, ?_, by decide, hc, ?_⟩
  · intro h0
    simp [act_test_metrics, h0]
  · intro h0
    refine ⟨?_, ?_, ?_⟩
    · by_cases hmn :
        (act_test_counts thre cs).1 + (act_test_counts thre cs).2 = 0 <;>
        simp [act_test_metrics, h0, hmn]
    · intro hmn
      simp [act_test_metrics, h0, hmn]
    · intro hmn
      simp [act_test_metrics, h0, hmn]
  · have hl : exFourCases.length = 4 := by decide
    simp [act_test_metrics, hc, hl]
    norm_num

/-- Mapping `probVal` over `range` recovers the probability vector. -/
theorem map_probVal_range (l : List ℚ) :
    (List.range l.length).map (probVal l) = l := by
  apply List.ext_getElem
  · simp
  · intro i h1 h2
    simp only [List.getElem_map, List.getElem_range, probVal]
    exact List.getD_eq_getElem l 0 h2

/-- The values of the ascending argsort are the ascending sort of the
values. -/
theorem argsortAsc_map_eq (l : List ℚ) :
    (argsortAsc l).map (probVal l) =
      List.insertionSort (fun a b : ℚ => a ≤ b) l := by
  haveI ht : IsTotal Nat (fun i j => probVal l i ≤ probVal l j) :=
    ⟨fun a b => le_total _ _⟩
  haveI htr : IsTrans Nat (fun i j => probVal l i ≤ probVal l j) :=
    ⟨fun a b c hab hbc => le_trans hab hbc⟩
  haveI hq1 : IsTotal ℚ (fun a b : ℚ => a ≤ b) := ⟨fun a b => le_total a b⟩
  haveI hq2 : IsTrans ℚ (fun a b : ℚ => a ≤ b) :=
    ⟨fun a b c hab hbc => le_trans hab hbc⟩
  haveI hq3 : IsAntisymm ℚ (fun a b : ℚ => a ≤ b) :=
    ⟨fun a b hab hba => le_antisymm hab hba⟩
  apply List.eq_of_perm_of_sorted (r := fun a b : ℚ => a ≤ b)
  · have p2 := (List.perm_insertionSort
      (fun i j => probVal l i ≤ probVal l j)
      (List.range l.length)).map (probVal l)
    rw [map_probVal_range] at p2
    exact p2.trans (List.perm_insertionSort (fun a b : ℚ => a ≤ b) l).symm
  · exact List.Pairwise.map (probVal l) (fun a b hab => hab)
      (List.sorted_insertionSort (fun i j => probVal l i ≤ probVal l j)
        (List.range l.length))
  · exact List.sorted_insertionSort (fun a b : ℚ => a ≤ b) l

/-- Reversing the ascending sort yields the descending sort. -/
theorem sortDesc_eq_reverse (l : List ℚ) :
    (List.insertionSort (fun a b : ℚ => a ≤ b) l).reverse = sortDesc l := by
  haveI h1 : IsTotal ℚ (fun a b : ℚ => b ≤ a) := ⟨fun a b => le_total b a⟩
  haveI h2 : IsTrans ℚ (fun a b : ℚ => b ≤ a) :=
    ⟨fun a b c hab hbc => le_trans hbc hab⟩
  haveI h3 : IsAntisymm ℚ (fun a b : ℚ => b ≤ a) :=
    ⟨fun a b hab hba => le_antisymm hba hab⟩
  apply List.eq_of_perm_of_sorted (r := fun a b : ℚ => b ≤ a)
  · exact ((List.insertionSort _ l).reverse_perm.trans
      (List.perm_insertionSort _ l)).trans
      (List.perm_insertionSort _ l).symm
  · exact List.pairwise_reverse.mpr (List.sorted_insertionSort _ _)
  · exact List.sorted_insertionSort _ _

/-- C4: for a probability vector of length K and ntop = N ≤ K, `find_topk`
returns exactly N entries (with pairwise-distinct dictionary keys), whose
probabilities are the N largest values of the input vector in descending
order of probability. -/
theorem find_topk_spec (l : List ℚ) (labels : List String) (N : Nat)
    (hN : N ≤ l.length) :
    (find_topk l labels N).length = N ∧
    ((find_topk l labels N).map (fun e => e.1)).Nodup ∧
    (find_topk l labels N).map (fun e => e.2.1) = (sortDesc l).take N := by
  have hlen_sort : (argsortAsc l).length = l.length := by
    rw [argsortAsc, List.length_insertionSort, List.length_range]
  have hkeys : (find_topk l labels N).map (fun e => e.1) = topkIdx l N := by
    have hcomp : ((fun (e : Nat × ℚ × String × List String) => e.1) ∘
        (fun k => (k, probVal l k, (parseLabel (labels.getD k "")).headD "",
          (parseLabel (labels.getD k "")).tail))) = id := rfl
    rw [find_topk, List.map_map, hcomp, List.map_id]
  refine ⟨?_, ?_, ?_⟩
  · rw [find_topk, List.length_map, topkIdx, List.length_take,
      List.length_reverse, hlen_sort]
    omega
  · rw [hkeys]
    have hnd : (argsortAsc l).Nodup :=
      (List.perm_insertionSort _ _).nodup_iff.mpr (List.nodup_range _)
    exact ((List.take_sublist _ _).nodup (List.nodup_reverse.mpr hnd))
  · rw [find_topk, List.map_map]
    have hproj : ((fun e => e.2.1) ∘
        (fun k => ((k, probVal l k, (parseLabel (labels.getD k "")).headD "",
          (parseLabel (labels.getD k "")).tail) :
            Nat × ℚ × String × List String))) = probVal l := rfl
    rw [hproj, topkIdx, List.map_take, List.map_reverse,
      argsortAsc_map_eq, sortDesc_eq_reverse]

/-- Witness for C4: a three-element probability vector with ntop = 2. -/
theorem find_topk_spec_witness :
    (2 : Nat) ≤ ([(1 : ℚ), 3, 2]).length ∧
    ((find_topk [(1 : ℚ), 3, 2] ["a x", "b", "c"] 2).length = 2 ∧
     ((find_topk [(1 : ℚ), 3, 2] ["a x", "b", "c"] 2).map
        (fun e => e.1)).Nodup ∧
     (find_topk [(1 : ℚ), 3, 2] ["a x", "b", "c"] 2).map (fun e => e.2.1) =
       (sortDesc [(1 : ℚ), 3, 2]).take 2) :=
  ⟨by decide, find_topk_spec [(1 : ℚ), 3, 2] ["a x", "b", "c"] 2 (by decide)⟩

/-- C5: `cluster_hc` reshapes a (channels, side, side) stack to
(side², channels), runs k-means with exactly 2 clusters and at most 300
iterations, and returns a (side, side) label image containing only the
values 0 and 1. -/
theorem cluster_hc_spec (kmeansFit : Nat → Nat → List (List ℚ) → List Nat)
    (hk : ∀ dat, (kmeansFit 2 300 dat).length = dat.length ∧
      ∀ v ∈ kmeansFit 2 300 dat, v < 2)
    (hc : List (List (List ℚ)))
    (hshape : ∀ ch ∈ hc, ch.length = hcSide hc ∧
      ∀ row ∈ ch, row.length = hcSide hc) :
    (hcPixelRows hc).length = hcSide hc * hcSide hc ∧
    (∀ row ∈ hcPixelRows hc, row.length = hc.length) ∧
    (cluster_hc kmeansFit hc).rows = hcSide hc ∧
    (cluster_hc kmeansFit hc).cols = hcSide hc ∧
    (cluster_hc kmeansFit hc).data = kmeansFit 2 300 (hcPixelRows hc) ∧
    (cluster_hc kmeansFit hc).data.length = hcSide hc * hcSide hc ∧
    ∀ v ∈ (cluster_hc kmeansFit hc).data, v = 0 ∨ v = 1 := by
  refine ⟨?_, ?_, rfl, rfl, rfl, ?_, ?_⟩
  · simp [hcPixelRows]
  · intro row hrow
    rcases List.mem_map.mp hrow with ⟨p, hp, hrow⟩
    subst hrow
    simp
  · show (kmeansFit 2 300 (hcPixelRows hc)).length = _
    rw [(hk (hcPixelRows hc)).1]
    simp [hcPixelRows]
  · intro v hv
    have := (hk (hcPixelRows hc)).2 v hv
    omega

/-- Witness for C5: a one-channel 2×2 stack and a k-means stub that labels
every sample 0. -/
theorem cluster_hc_spec_witness :
    (hcPixelRows exHc).length = hcSide exHc * hcSide exHc ∧
    (∀ row ∈ hcPixelRows exHc, row.length = exHc.length) ∧
    (cluster_hc (fun _ _ dat => dat.map (fun _ => 0)) exHc).rows =
      hcSide exHc ∧
    (cluster_hc (fun _ _ dat => dat.map (fun _ => 0)) exHc).cols =
      hcSide exHc ∧
    (cluster_hc (fun _ _ dat => dat.map (fun _ => 0)) exHc).data =
      (hcPixelRows exHc).map (fun _ => 0) ∧
    (cluster_hc (fun _ _ dat => dat.map (fun _ => 0)) exHc).data.length =
      hcSide exHc * hcSide exHc ∧
    ∀ v ∈ (cluster_hc (fun _ _ dat => dat.map (fun _ => 0)) exHc).data,
      v = 0 ∨ v = 1 :=
  cluster_hc_spec (fun _ _ dat => dat.map (fun _ => 0))
    (fun dat => ⟨by simp, by
      intro v hv
      rcases List.mem_map.mp hv with ⟨a, ha, hav⟩
      omega⟩)
    exHc
    (by
      intro ch hch
      simp only [exHc, List.mem_singleton] at hch
      subst hch
      refine ⟨rfl, ?_⟩
      intro row hrow
      rcases List.mem_cons.mp hrow with hrow | hrow
      · subst hrow; rfl
      · rw [List.mem_singleton] at hrow
        subst hrow; rfl)

/-- `getD` on a mapped list, below the length. -/
theorem getD_map_of_lt {α β : Type} (f : α → β) (l : List α) (i : Nat)
    (h : i < l.length) (d : β) (e : α) :
    (l.map f).getD i d = f (l.getD i e) := by
  induction l generalizing i with
  | nil => cases h
  | cons a l ih =>
    cases i with
    | zero => rfl
    | succ j =>
      simp only [List.map_cons, List.getD_cons_succ]
      exact ih j (Nat.lt_of_succ_lt_succ h)

/-- C6: `extract_hypercolumn` returns one 224×224 slice per channel of every
selected layer, with first dimension equal to the total channel count and
slices ordered by (layer index, channel index): the slice at offset
(channels of earlier layers) + ci is the resized channel ci of layer li. -/
theorem extract_hypercolumn_spec (resize : Mat → Mat)
    (hres : ∀ m, (resize m).rows = 224 ∧ (resize m).cols = 224)
    (featureMaps : List (List Mat)) :
    (extract_hypercolumn resize featureMaps).length =
      (featureMaps.map List.length).sum ∧
    (∀ m ∈ extract_hypercolumn resize featureMaps,
      m.rows = 224 ∧ m.cols = 224) ∧
    (∀ li ci, li < featureMaps.length →
      ci < (featureMaps.getD li []).length →
      (extract_hypercolumn resize featureMaps).getD
          (((featureMaps.take li).map List.length).sum + ci) matZero =
        resize ((featureMaps.getD li []).getD ci matZero)) := by
  refine ⟨?_, ?_, ?_⟩
  · simp only [extract_hypercolumn]
    rw [List.length_flatten, List.map_map]
    have hcomp : (List.length ∘ fun convmap => List.map resize convmap) =
        (List.length : List Mat → Nat) := by
      funext c
      simp
    rw [hcomp]
  · intro m hm
    simp only [extract_hypercolumn, List.mem_flatten, List.mem_map] at hm
    obtain ⟨sub, ⟨layer, hlayer, hsub⟩, hmem⟩ := hm
    subst hsub
    obtain ⟨f, hf, hfm⟩ := List.mem_map.mp hmem
    subst hfm
    exact hres f
  · intro li ci
    induction featureMaps generalizing li with
    | nil =>
      intro h
      cases h
    | cons layer rest ih =>
      have hext : extract_hypercolumn resize (layer :: rest) =
          layer.map resize ++ extract_hypercolumn resize rest := by
        simp [extract_hypercolumn]
      intro hli hci
      cases li with
      | zero =>
        simp only [List.take_zero, List.map_nil, List.sum_nil, Nat.zero_add,
          List.getD_cons_zero] at hci ⊢
        rw [hext, List.getD_append _ _ _ _ (by simpa using hci)]
        exact getD_map_of_lt resize layer ci hci matZero matZero
      | succ li' =>
        simp only [List.take_succ_cons, List.map_cons, List.sum_cons,
          List.getD_cons_succ] at hci ⊢
        rw [hext, Nat.add_assoc,
          List.getD_append_right _ _ _ _ (by simp)]
        have hsub : layer.length +
            ((((rest.take li').map List.length).sum) + ci) -
            (layer.map resize).length =
            ((rest.take li').map List.length).sum + ci := by
          simp
        rw [hsub]
        exact ih li' (Nat.lt_of_succ_lt_succ hli) hci

/-- Witness for C6: two layers with one and two channels, and a resize stub
returning an empty 224×224 matrix. -/
theorem extract_hypercolumn_spec_witness :
    (extract_hypercolumn (fun _ => ⟨224, 224, []⟩) exFeatureMaps).length =
      (exFeatureMaps.map List.length).sum ∧
    (∀ m ∈ extract_hypercolumn (fun _ => ⟨224, 224, []⟩) exFeatureMaps,
      m.rows = 224 ∧ m.cols = 224) ∧
    (∀ li ci, li < exFeatureMaps.length →
      ci < (exFeatureMaps.getD li []).length →
      (extract_hypercolumn (fun _ => ⟨224, 224, []⟩) exFeatureMaps).getD
          (((exFeatureMaps.take li).map List.length).sum + ci) matZero =
        (fun _ => (⟨224, 224, []⟩ : Mat))
          ((exFeatureMaps.getD li []).getD ci matZero)) :=
  extract_hypercolumn_spec (fun _ => ⟨224, 224, []⟩)
    (fun _ => ⟨rfl, rfl⟩) exFeatureMaps

/-- Witness for C2 at the four-case example: four cases, nonempty
denominators, recall 1/2 and precision 1. -/
theorem act_test_metrics_spec_witness :
    exFourCases.length ≠ 0 ∧
    (act_test_metrics 1 exFourCases).1 =
      some (((act_test_counts 1 exFourCases).1 : ℚ) /
        (exFourCases.length : ℚ)) ∧
    act_test_metrics 1 exFourCases = (some (1/2), some 1) :=
  ⟨by decide,
   ((act_test_metrics_spec 1 exFourCases).2.1 (by decide)).1,
   (act_test_metrics_spec 1 exFourCases).2.2.2.2⟩

end Simdat
